import Mathlib

/-!
Verification development for the Vedoice text-to-speech application.

The definitions below are shallow embeddings of the functions of the
repository (src/index.tsx, the standalone TTS service and its constants).
Number-typed audio samples are modelled as rationals: every arithmetic
operation performed by the code on samples (division and multiplication by
powers of two and by 32767, clamping, truncation toward zero) is exact in
ieee double precision for the values that occur, so rational arithmetic is
a faithful model. JavaScript truncation toward zero (the ToInt32 and
ToInt16 conversions used by the bitwise-or-zero idiom and by
DataView.setInt16) is modelled by truncJS.
-/

namespace Vedoice

/-- Interpretation of two bytes as one signed 16-bit little-endian integer,
as done by an Int16Array view over the byte buffer. -/
def toInt16 (b0 b1 : Nat) : Int :=
  let u : Nat := b0 + 256 * b1
  if u < 32768 then (u : Int) else (u : Int) - 65536

/-- The sequence of signed 16-bit values of a byte list, in little-endian
pairs, as exposed by an Int16Array over the buffer.  A trailing odd byte
never occurs for the views the code builds (the constructor throws first). -/
def toInt16s : List Nat → List Int
  | b0 :: b1 :: rest => toInt16 b0 b1 :: toInt16s rest
  | _ => []

/-- The two little-endian bytes written by DataView.setInt16 for value v
(ToInt16 wraps modulo 2^16). -/
def le16i (v : Int) : List Nat :=
  let u : Nat := (v % 65536).toNat
  [u % 256, u / 256]

/-- Little-endian byte expansion of a list of 16-bit values. -/
def fromInt16s (l : List Int) : List Nat := l.flatMap le16i

/-- JavaScript number-to-integer truncation toward zero (ToIntegerOrInfinity,
also the effect of the bitwise-or-zero idiom for in-range values). -/
def truncJS (q : ℚ) : Int := if q < 0 then ⌈q⌉ else ⌊q⌋

/-- Math.max(-1, Math.min(1, x)): clamp a sample into the unit range. -/
def clamp1 (q : ℚ) : ℚ := max (-1) (min 1 q)

/-- Per-sample conversion of floatTo16BitPCM (geminiService):
let s = Math.max(-1, Math.min(1, input[i]));
output.setInt16(offset, s < 0 ? s * 0x8000 : s * 0x7FFF, true); -/
def floatTo16BitPCMSample (q : ℚ) : Int :=
  let s := clamp1 q
  truncJS (if s < 0 then s * 32768 else s * 32767)

/-- Per-sample conversion of bufferToWave (index.tsx):
sample = Math.max(-1, Math.min(1, channels[i][offset]));
sample = (0.5 + sample < 0 ? sample * 32768 : sample * 32767) | 0;
Note the condition is (0.5 + sample) < 0, i.e. sample < -0.5. -/
def bufferToWaveSample (q : ℚ) : Int :=
  let s := clamp1 q
  truncJS (if 1/2 + s < 0 then s * 32768 else s * 32767)

/-- Byte stream produced by floatTo16BitPCM over a channel of samples. -/
def floatTo16BitPCM (input : List ℚ) : List Nat :=
  input.flatMap fun q => le16i (floatTo16BitPCMSample q)

/-- Result of AudioContext.createBuffer and the decode loop. -/
structure JsAudioBuffer where
  sampleRate : Nat
  channels : List (List ℚ)
deriving Repr, DecidableEq

/-- Failures decodeAudioData can hit: the RangeError thrown by the
Int16Array constructor on an odd-length buffer, and the NotSupportedError
thrown by createBuffer on a zero frame count or an unsupported channel
count.  The code itself performs no validation of its own. -/
inductive PcmDecodeError
  | rangeError
  | notSupportedError
deriving Repr, DecidableEq

/-- decodeAudioData (index.tsx, lines 282-299):
const dataInt16 = new Int16Array(data.buffer);           -- throws if odd
const frameCount = dataInt16.length / numChannels;       -- real division
const buffer = ctx.createBuffer(numChannels, frameCount, sampleRate);
-- WebIDL converts the fractional frameCount to an unsigned long by
-- truncation; createBuffer throws for 0 frames or channels outside 1..32.
for channel, for i < frameCount: channelData[i] = dataInt16[i*numChannels+channel] / 32768.0
-- writes at index ≥ truncated frame count are silently ignored by the
-- Float32Array, so each channel holds the first floor(frameCount) frames. -/
def decodeAudioData (data : List Nat) (sampleRate numChannels : Nat) :
    Except PcmDecodeError JsAudioBuffer :=
  if data.length % 2 ≠ 0 then .error .rangeError
  else
    let dataInt16 := toInt16s data
    let frameCount := dataInt16.length / numChannels
    if numChannels = 0 ∨ 32 < numChannels ∨ frameCount = 0 then .error .notSupportedError
    else .ok
      { sampleRate := sampleRate
        channels := (List.range numChannels).map fun channel =>
          (List.range frameCount).map fun i =>
            (dataInt16.getD (i * numChannels + channel) 0 : ℚ) / 32768 }

/-! ### Script scanning: the MULTI_SPEAKER_PATTERN regular expression

The constant regular expression of constants.ts is
/^([A-Za-z_][A-Za-z0-9_]*):\s*(.*)$/gm.  matchAll scans the subject left to
right; a match can only begin at the start of the string or right after a
line terminator; it consumes a maximal identifier run, the colon, a maximal
whitespace run (\s also matches line terminators, so a blank remainder lets
the run cross into following lines) and then the rest of the line.  The
scanner below reproduces these semantics over the character list, carrying
the flag "the current position is at a line start". -/

/-- Character class [A-Za-z_], the first character of the speaker name. -/
def idStartChar (c : Char) : Bool := c.isAlpha || c = '_'

/-- Character class [A-Za-z0-9_], the following characters of the name. -/
def idBodyChar (c : Char) : Bool := idStartChar c || c.isDigit

/-- The regex class \s (the members that can occur in editor text). -/
def jsWhitespace (c : Char) : Bool :=
  c = ' ' || c = '\t' || c = '\n' || c = '\r' || c = '\x0b' || c = '\x0c'

/-- Line terminators recognised by ^, $ and excluded by the dot. -/
def jsLineTerm (c : Char) : Bool := c = '\n' || c = '\r'

/-- One scanning step per recursion: at a line start, an identifier run
followed by a colon yields a match consuming the maximal whitespace run and
then the rest of the line; any other position advances one character.  The
first argument is recursion fuel (each step consumes at least one
character, so fuel equal to the list length always suffices; the fuel form
keeps the recursion structural). -/
def scanPairsGo : Nat → List Char → Bool → List (String × String)
  | 0, _, _ => []
  | _, [], _ => []
  | fuel + 1, c :: cs, atStart =>
    if atStart && idStartChar c then
      match List.dropWhile idBodyChar (c :: cs) with
      | ':' :: rest2 =>
        let run := List.takeWhile idBodyChar (c :: cs)
        let ws := List.takeWhile jsWhitespace rest2
        let rest3 := List.dropWhile jsWhitespace rest2
        let tl := List.takeWhile (fun d => !jsLineTerm d) rest3
        let rest4 := List.dropWhile (fun d => !jsLineTerm d) rest3
        (String.mk (run ++ ':' :: (ws ++ tl)), String.mk run) :: scanPairsGo fuel rest4 false
      | _ => scanPairsGo fuel cs false
    else
      scanPairsGo fuel cs (jsLineTerm c)

/-- All matches of MULTI_SPEAKER_PATTERN in order, as pairs of the whole
match (match[0]) and the captured name (match[1]).  The Boolean argument
records whether the current position is a line start. -/
def scanPairs (l : List Char) (atStart : Bool) : List (String × String) :=
  scanPairsGo l.length l atStart

/-- matchAll over a string, starting at a line start. -/
def jsMatchAll (text : String) : List (String × String) := scanPairs text.data true

/-- parseMultiSpeakerText (geminiService): the full matched turns,
matches.map(match => match[0]). -/
def parseMultiSpeakerText (text : String) : List String :=
  (jsMatchAll text).map Prod.fst

/-- Insertion-ordered deduplication, the behaviour of filling a JavaScript
Set and converting it back with Array.from: first occurrence wins. -/
def collectUnique (l : List String) : List String :=
  l.foldl (fun acc x => if x ∈ acc then acc else acc ++ [x]) []

/-- getRecognizedSpeakers (App component): collect match[1] of every match
into a Set, return Array.from of it. -/
def getRecognizedSpeakers (text : String) : List String :=
  collectUnique ((jsMatchAll text).map Prod.snd)

/-- Reference reading of the spec sentence "the distinct names matching the
line-leading Name: pattern": split into lines, keep the leading identifier
of each line of the shape identifier-colon-anything. -/
def lineLeadName (l : List Char) : Option (List Char) :=
  match l with
  | [] => none
  | c :: _ =>
    if idStartChar c then
      match List.dropWhile idBodyChar l with
      | ':' :: _ => some (List.takeWhile idBodyChar l)
      | _ => none
    else none

/-- Spec-worded speaker extraction: distinct line-leading names, in order
of first appearance. -/
def specLineNames (s : String) : List String :=
  collectUnique (((s.data.splitOn '\n').filterMap lineLeadName).map String.mk)

/-- Join script lines with newline characters (no trailing newline), the
shape of a multi-line editor document. -/
def joinLines : List (List Char) → List Char
  | [] => []
  | [l] => l
  | l :: ls => l ++ '\n' :: joinLines ls

/-- A script line the scanner handles one line at a time: it contains no
line terminator, and if it is a speaker line then the text after the colon
contains a character that is not regex whitespace (otherwise the \s* run of
the pattern crosses the line break and swallows the next line). -/
def goodLine (l : List Char) : Prop :=
  (∀ c ∈ l, jsLineTerm c = false) ∧
  (lineLeadName l = none ∨
    ∃ c ∈ (List.dropWhile idBodyChar l).drop 1, jsWhitespace c = false)

instance (l : List Char) : Decidable (goodLine l) := by
  unfold goodLine
  exact inferInstance

/-- JavaScript String.prototype.trim, structurally (whitespace from both
ends); the character class is the one relevant to editor text. -/
def jsTrim (s : String) : String :=
  String.mk (((s.data.dropWhile jsWhitespace).reverse.dropWhile jsWhitespace).reverse)

/-! ### Speaker reconciliation (analyzeScriptForSpeakers, index.tsx) -/

def MAX_SPEAKERS : Nat := 5
def MIN_SPEAKERS : Nat := 2

/-- The fixed default voice pool of analyzeScriptForSpeakers. -/
def defaultVoices : List String := ["Kore", "Zephyr", "Puck", "Charon", "Fenrir"]

structure SpeakerConfig where
  id : Nat
  name : String
  voice : String
deriving Repr, DecidableEq

/-- characterNames.slice(0, MAX_SPEAKERS).map((name, index) =>
(id: Date.now() + index, name, voice: defaultVoices[index % length])).
Date.now() is passed in as `now`. -/
def reconcileSpeakers (now : Nat) (characterNames : List String) : List SpeakerConfig :=
  (characterNames.take MAX_SPEAKERS).mapIdx fun index name =>
    { id := now + index
      name := name
      voice := defaultVoices.getD (index % defaultVoices.length) "" }

/-! ### Standalone TTS service (geminiService): speech configuration -/

/-- Speech rate, pitch and volume settings threaded into voice configs. -/
structure SpeechSettingsV where
  speakingRate : ℚ
  pitch : ℚ
  volumeGainDb : ℚ
deriving Repr, DecidableEq

/-- One entry of speakerVoiceConfigs in the multi-speaker configuration. -/
structure SpeakerVoiceCfg where
  speaker : String
  voiceName : String
  speakingRate : ℚ
  pitch : ℚ
  volumeGainDb : ℚ
deriving Repr, DecidableEq

/-- The speechConfig value sent with the request: a single prebuilt voice
or a multi-speaker voice configuration. -/
inductive SpeechConfigV
  | voice (voiceName : String) (settings : SpeechSettingsV)
  | multiSpeaker (cfgs : List SpeakerVoiceCfg)
deriving Repr, DecidableEq

/-- The MULTI_SPEAKER_VOICES table of constants.ts. -/
def MULTI_SPEAKER_VOICES (name : String) : Option String :=
  if name = "Joe" then some "Kore"
  else if name = "Jane" then some "Puck"
  else if name = "Anna" then some "Charon"
  else if name = "Max" then some "Fenrir"
  else if name = "Sarah" then some "Zephyr"
  else none

/-- The forEach loop of generateTTS that builds speakerVoiceConfigs.  Each
part is re-matched against the pattern with String.prototype.match; because
the regular expression carries the global flag, match returns the array of
full match strings without capture groups, so match[1] is the second full
match if any (JavaScript: undefined otherwise, which is falsy, as is an
empty string).  A name is added once (the uniqueSpeakers set). -/
def buildSpeakerVoiceConfigs (parts : List String) (settings : SpeechSettingsV) :
    List SpeakerVoiceCfg :=
  (parts.foldl
    (fun (st : List SpeakerVoiceCfg × List String) part =>
      let fulls := (jsMatchAll part).map Prod.fst
      if fulls.isEmpty then st
      else
        match fulls[1]? with
        | none => st
        | some m1 =>
          if m1 = "" then st
          else
            let speakerName := jsTrim m1
            if speakerName ∈ st.2 then st
            else
              (st.1 ++ [{ speaker := speakerName
                          voiceName := (MULTI_SPEAKER_VOICES speakerName).getD "Zephyr"
                          speakingRate := settings.speakingRate
                          pitch := settings.pitch
                          volumeGainDb := settings.volumeGainDb }],
               st.2 ++ [speakerName]))
    ([], [])).1

/-- The speechConfig chosen by generateTTS (geminiService, lines 27-84):
multi-speaker when the pattern matches and configs were produced, otherwise
the single prebuilt voice given by the caller. -/
def generateTTSSpeechConfig (text voiceName : String) (settings : SpeechSettingsV) :
    SpeechConfigV :=
  let speakerParts := parseMultiSpeakerText text
  if speakerParts.isEmpty then .voice voiceName settings
  else
    let cfgs := buildSpeakerVoiceConfigs speakerParts settings
    if cfgs.isEmpty then .voice voiceName settings
    else .multiSpeaker cfgs

/-! ### Emotion instruction (getEmotionPromptString, index.tsx) -/

/-- The emotionAdverbMap table of index.tsx. -/
def emotionAdverbMap (emotion : String) : Option String :=
  if emotion = "joyful" then some "joyfully"
  else if emotion = "amused" then some "amusedly"
  else if emotion = "excited" then some "excitedly"
  else if emotion = "enthusiastic" then some "enthusiastically"
  else if emotion = "confident" then some "confidently"
  else if emotion = "hopeful" then some "hopefully"
  else if emotion = "calm" then some "calmly"
  else if emotion = "playful" then some "playfully"
  else if emotion = "proud" then some "proudly"
  else if emotion = "sad" then some "sadly"
  else if emotion = "angry" then some "angrily"
  else if emotion = "fearful" then some "fearfully"
  else if emotion = "concerned" then some "in a concerned tone"
  else if emotion = "disappointed" then some "disappointedly"
  else if emotion = "anxious" then some "anxiously"
  else if emotion = "annoyed" then some "in an annoyed tone"
  else if emotion = "sarcastic" then some "sarcastically"
  else if emotion = "surprised" then some "in a surprised tone"
  else if emotion = "suspenseful" then some "suspensefully"
  else if emotion = "skeptical" then some "skeptically"
  else if emotion = "thoughtful" then some "thoughtfully"
  else if emotion = "whisper" then some "in a whispering tone"
  else if emotion = "authoritative" then some "authoritatively"
  else if emotion = "cinematic" then some "cinematically"
  else none

/-- emotionAdverbMap[emotion] || `with ${emotion}`: the registered adverb
unless it is absent (or empty, which is falsy in JavaScript). -/
def adverbFor (emotion : String) : String :=
  match emotionAdverbMap emotion with
  | some a => if a = "" then "with " ++ emotion else a
  | none => "with " ++ emotion

/-- getEmotionPromptString over the current emotion controls, each an
(emotion, intensity) pair: push the adverb of every non-neutral entry of
positive intensity, then wrap the " and "-joined phrases. -/
def getEmotionPromptString (controls : List (String × Int)) : String :=
  let emotionStrings := controls.foldl
    (fun acc p => if p.1 ≠ "neutral" ∧ 0 < p.2 then acc ++ [adverbFor p.1] else acc) []
  if emotionStrings.isEmpty then ""
  else "Recite the following " ++ String.intercalate " and " emotionStrings ++ ": "

/-! ### Plain TTS prompt construction (generateAudio, tts branch) -/

/-- The language hint prepended when the Hinglish toggle is checked. -/
def hinglishInstruction : String :=
  "The following is Hinglish text. Please pronounce all words appropriately. "

/-- The narrationStylePromptMap table of index.tsx; unknown keys behave as
the empty instruction (undefined is falsy, exactly like the empty string
mapped to the default style). -/
def narrationStylePromptMap (style : String) : String :=
  if style = "news" then "Recite in a clear, formal tone like a news anchor. "
  else if style = "documentary" then "Recite in a calm, informative tone like a documentary narrator. "
  else if style = "audiobook" then "Recite in an engaging, narrative tone like an audiobook narrator. "
  else if style = "trailer" then "Recite in a dramatic, epic tone like a movie trailer voiceover. "
  else if style = "asmr" then "Recite in a very soft, close-mic, whispering ASMR style. "
  else if style = "radio_dj" then "Recite in an upbeat, energetic tone like a morning show radio DJ. "
  else if style = "sports" then "Recite in a fast-paced, excited, and dynamic tone like a sports commentator. "
  else if style = "meditation" then "Recite in a slow, calming, and peaceful tone with pauses, like a meditation guide. "
  else if style = "elearning" then "Recite in a clear, friendly, and educational tone like an e-learning instructor. "
  else ""

/-- The prompt built by the tts branch of generateAudio (index.tsx, lines
1163-1189): starting from the script, prepend the emotion instruction if
non-empty, then the narration instruction if non-empty, then the Hinglish
hint if the toggle is on, and finally prefix the fixed request text. -/
def ttsPrompt (blend : List (String × Int)) (narrationStyle : String)
    (useHinglish : Bool) (script : String) : String :=
  let emotionInstruction := getEmotionPromptString blend
  let promptBody0 := script
  let promptBody1 :=
    if emotionInstruction = "" then promptBody0 else emotionInstruction ++ promptBody0
  let narrationInstruction := narrationStylePromptMap narrationStyle
  let promptBody2 :=
    if narrationInstruction = "" then promptBody1 else narrationInstruction ++ promptBody1
  let promptBody3 := if useHinglish then hinglishInstruction ++ promptBody2 else promptBody2
  "TTS the following text: " ++ promptBody3

/-- The prompt as described by the specification sentence: concatenation,
in this fixed order, of emotion instruction, narration-style instruction,
language-hint instruction, literal script text. -/
def specTtsPrompt (blend : List (String × Int)) (narrationStyle : String)
    (useHinglish : Bool) (script : String) : String :=
  getEmotionPromptString blend ++ narrationStylePromptMap narrationStyle ++
    (if useHinglish then hinglishInstruction else "") ++ script

/-! ### Story generation (generateAudio, story branch) -/

inductive StoryMode
  | multi
  | ai
  | single
deriving Repr, DecidableEq

/-- The validation failures thrown by generateAudio before the remote
call: an empty script, or fewer than MIN_SPEAKERS configured speakers in
the multi-speaker and AI-director modes. -/
inductive GenError
  | emptyScript
  | insufficientSpeakers
deriving Repr, DecidableEq

/-- One entry of the multi-speaker voice configuration built from the
speaker roster: (speaker: s.name, voiceConfig.prebuiltVoiceConfig.voiceName
: s.voice). -/
structure StorySpeakerCfg where
  speaker : String
  voiceName : String
deriving Repr, DecidableEq

/-- Voice configuration of the story request. -/
inductive StoryCfg
  | voice (voiceName : String)
  | multiSpeaker (cfgs : List StorySpeakerCfg)
deriving Repr, DecidableEq

/-- The request that generateAudio would hand to the remote model for the
story tab: the final prompt string and the voice configuration.  An
Except.error value means generateAudio throws before any remote call. -/
structure StoryRequest where
  prompt : String
  config : StoryCfg
deriving Repr, DecidableEq

/-- The apostrophe character (written as a character literal). -/
def aposChar : Char := '\''

/-- The literal opening of a director-note annotation.  The creative
pattern includes the space after the colon (its lazy group starts after
it); the stripping pattern stops at the colon. -/
def directorNoteMarker (creative : Bool) : List Char :=
  "[DIRECTOR".data ++ aposChar :: (if creative then "S NOTE: " else "S NOTE:").data

/-- script.replace on the director-note pattern with the /gs flags: each
non-overlapping occurrence of the marker followed (lazily) by any text up
to the first closing bracket is replaced; with creative freedom on the
captured text is rewritten into a parenthetical narration direction, and
with it off the whole annotation is removed.  An occurrence without a
closing bracket does not match. -/
def rewriteNotesGo (creative : Bool) : List Char → List Char
  | [] => []
  | c :: cs =>
    if (directorNoteMarker creative).isPrefixOf (c :: cs) ∧
        ((c :: cs).drop (directorNoteMarker creative).length).any (· = ']') then
      let after := (c :: cs).drop (directorNoteMarker creative).length
      let inner := after.takeWhile (· ≠ ']')
      let rest := (after.dropWhile (· ≠ ']')).drop 1
      (if creative then "(NARRATION DIRECTION: ".data ++ inner ++ [')'] else []) ++
        rewriteNotesGo creative rest
    else c :: rewriteNotesGo creative cs
termination_by l => l.length
decreasing_by
  · rename_i cs hcond
    have hdw : ∀ (p : Char → Bool) (l : List Char),
        (List.dropWhile p l).length ≤ l.length := by
      intro p l
      induction l with
      | nil => simp [List.dropWhile]
      | cons x xs ih =>
        by_cases hx : p x
        · simpa [List.dropWhile, hx] using Nat.le_succ_of_le ih
        · simp [List.dropWhile, hx]
    have h1 := hdw (fun x => decide (x ≠ ']'))
      ((c :: cs).drop (directorNoteMarker creative).length)
    have hm : 17 ≤ (directorNoteMarker creative).length := by
      cases creative <;> simp [directorNoteMarker]
    simp only [List.length_drop, List.length_cons] at *
    omega
  · simp only [List.length_cons]
    omega

/-- generateAudio, story branch (index.tsx, lines 1191-1253).  The script
is the active editor document, the speakers come from the bridged speaker
roster, and emotionInstruction is the current getEmotionPromptString
value.  The empty-script check happens first for every tab; the
multi-speaker and AI-director modes then require at least MIN_SPEAKERS
speakers before the remote call is issued. -/
def storyGenerate (script : String) (mode : StoryMode)
    (speakers : List (String × String)) (aiCreative : Bool)
    (emotionInstruction storyVoice : String) : Except GenError StoryRequest :=
  if jsTrim script = "" then .error .emptyScript
  else
    match mode with
    | .single =>
      .ok { prompt := "TTS the following story: " ++ emotionInstruction ++ script
            config := .voice storyVoice }
    | .multi =>
      if speakers.length < MIN_SPEAKERS then .error .insufficientSpeakers
      else
        .ok { prompt := "TTS the following conversation between " ++
                String.intercalate " and " (speakers.map Prod.fst) ++ ": " ++ script
              config := .multiSpeaker
                (speakers.map fun s => { speaker := s.1, voiceName := s.2 }) }
    | .ai =>
      if speakers.length < MIN_SPEAKERS then .error .insufficientSpeakers
      else if aiCreative then
        .ok { prompt := "TTS the following script, following all parenthetical directions for tone and pacing:\n\n" ++
                String.mk (rewriteNotesGo true script.data)
              config := .multiSpeaker
                (speakers.map fun s => { speaker := s.1, voiceName := s.2 }) }
      else
        .ok { prompt := "TTS the following script, ignoring any parenthetical notes:\n\n" ++
                jsTrim (String.mk (rewriteNotesGo false script.data))
              config := .multiSpeaker
                (speakers.map fun s => { speaker := s.1, voiceName := s.2 }) }

/-! ### WAV encoding (bufferToWave, index.tsx lines 1334-1385) -/

/-- The audio buffer handed to the WAV encoder: its WebAudio length (frame
count), sample rate, and planar channel data. -/
structure WaveBuffer where
  sampleRate : Nat
  numFrames : Nat
  channels : List (List ℚ)
deriving Repr, DecidableEq

/-- Little-endian bytes written by setUint16 (value taken modulo 2^16). -/
def le16 (n : Nat) : List Nat := [n % 256, n / 256 % 256]

/-- Little-endian bytes written by setUint32 (value taken modulo 2^32). -/
def le32 (n : Nat) : List Nat :=
  [n % 256, n / 256 % 256, n / 65536 % 256, n / 16777216 % 256]

/-- The two bytes written by setInt16 for a signed value. -/
def int16Bytes (v : Int) : List Nat := le16 ((v % 65536).toNat)

/-- bufferToWave: the 44-byte RIFF/WAVE header followed by the interleaved
clamped-and-scaled 16-bit samples; `len` is the frame count passed by the
callers (always the buffer length).  Out-of-range channel reads in the
source produce NaN which the |0 conversion turns into 0; getD 0 combined
with the converter yields the same byte output. -/
def bufferToWave (abuffer : WaveBuffer) (len : Nat) : List Nat :=
  let numOfChan := abuffer.channels.length
  let totalLength := len * numOfChan * 2 + 44
  le32 0x46464952 ++ le32 (totalLength - 8) ++ le32 0x45564157 ++
  le32 0x20746d66 ++ le32 16 ++ le16 1 ++ le16 numOfChan ++
  le32 abuffer.sampleRate ++ le32 (abuffer.sampleRate * 2 * numOfChan) ++
  le16 (numOfChan * 2) ++ le16 16 ++ le32 0x61746164 ++ le32 (totalLength - 44) ++
  ((List.range len).flatMap fun offset =>
    (List.range numOfChan).flatMap fun i =>
      int16Bytes (bufferToWaveSample ((abuffer.channels.getD i []).getD offset 0)))

/-! ### MP3 export mutual exclusion (downloadMp3, index.tsx lines 1410-1488)

The module state is the isEncodingMp3 flag.  The events below are the entry
points that touch it: a user request (with the availability of the final
buffer and of the worker at that moment), the worker completion message,
the worker error event, and a processing failure thrown before or while
posting to the worker.  The started and finished counters are observer
instrumentation used to state mutual exclusion; they do not influence the
transitions.  Worker callbacks are installed only while a job is in
flight, which the isEncodingMp3 guard on the finishing events reflects. -/

structure Mp3State where
  isEncodingMp3 : Bool
  started : Nat
  finished : Nat
deriving Repr, DecidableEq

inductive Mp3Event
  | request (hasBuffer hasWorker : Bool)
  | workerMessage
  | workerError
  | processingError
deriving Repr, DecidableEq

/-- The user-visible reaction of downloadMp3 to an event. -/
inductive Mp3Reply
  | noAudioAlert
  | busyAlert
  | noWorkerAlert
  | jobStarted
  | jobFinished
  | ignored
deriving Repr, DecidableEq

def mp3Init : Mp3State := { isEncodingMp3 := false, started := 0, finished := 0 }

/-- One transition of the downloadMp3 state machine.  A request checks the
buffer, then the busy flag, then the worker, and only then sets the flag
and starts an encode; the three finishing events clear the flag. -/
def mp3Step (s : Mp3State) : Mp3Event → Mp3State × Mp3Reply
  | .request hasBuffer hasWorker =>
    if !hasBuffer then (s, .noAudioAlert)
    else if s.isEncodingMp3 then (s, .busyAlert)
    else if !hasWorker then (s, .noWorkerAlert)
    else ({ s with isEncodingMp3 := true, started := s.started + 1 }, .jobStarted)
  | .workerMessage =>
    if s.isEncodingMp3 then
      ({ s with isEncodingMp3 := false, finished := s.finished + 1 }, .jobFinished)
    else (s, .ignored)
  | .workerError =>
    if s.isEncodingMp3 then
      ({ s with isEncodingMp3 := false, finished := s.finished + 1 }, .jobFinished)
    else (s, .ignored)
  | .processingError =>
    if s.isEncodingMp3 then
      ({ s with isEncodingMp3 := false, finished := s.finished + 1 }, .jobFinished)
    else (s, .ignored)

/-- The state after a sequence of events from the initial state. -/
def mp3Run (evts : List Mp3Event) : Mp3State :=
  evts.foldl (fun s e => (mp3Step s e).1) mp3Init

/-! ## Theorems -/

/-! ### Generic helpers -/

theorem flatMap_congr_mem {α β : Type} (l : List α) (f g : α → List β)
    (h : ∀ x ∈ l, f x = g x) : l.flatMap f = l.flatMap g := by
  induction l with
  | nil => rfl
  | cons x xs ih =>
    simp only [List.flatMap_cons]
    rw [h x (by simp), ih fun y hy => h y (by simp [hy])]

theorem range_map_getD {α β : Type} (l : List α) (d : α) (g : α → β) :
    (List.range l.length).map (fun i => g (l.getD i d)) = l.map g := by
  induction l with
  | nil => rfl
  | cons x xs ih =>
    rw [List.length_cons, List.range_succ_eq_map]
    simp only [List.map_cons, List.getD_cons_zero, List.map_map]
    refine congrArg (g x :: ·) ?_
    rw [← ih]
    exact List.map_congr_left fun i _ => by simp [Function.comp, List.getD_cons_succ]

/-! ### Truncation toward zero and clamping -/

theorem truncJS_intCast (v : ℤ) : truncJS (v : ℚ) = v := by
  unfold truncJS
  split <;> simp

theorem truncJS_le {q : ℚ} {n : ℤ} (h : q ≤ (n : ℚ)) : truncJS q ≤ n := by
  unfold truncJS
  split
  · exact Int.ceil_le.mpr h
  · calc ⌊q⌋ ≤ ⌊(n : ℚ)⌋ := Int.floor_le_floor h
      _ = n := Int.floor_intCast n

theorem le_truncJS {q : ℚ} {n : ℤ} (h : (n : ℚ) ≤ q) : n ≤ truncJS q := by
  unfold truncJS
  split
  · calc n = ⌈(n : ℚ)⌉ := (Int.ceil_intCast n).symm
      _ ≤ ⌈q⌉ := Int.ceil_le_ceil h
  · exact Int.le_floor.mpr h

theorem neg_one_le_clamp1 (q : ℚ) : -1 ≤ clamp1 q := le_max_left _ _

theorem clamp1_le_one (q : ℚ) : clamp1 q ≤ 1 :=
  max_le (by norm_num) (min_le_left _ _)

theorem clamp1_eq_self {q : ℚ} (h1 : -1 ≤ q) (h2 : q ≤ 1) : clamp1 q = q := by
  unfold clamp1
  rw [min_eq_right h2, max_eq_right h1]

/-- The decoded value of a 16-bit sample re-encoded by floatTo16BitPCM:
negative and zero samples survive unchanged, positive samples lose one. -/
theorem floatTo16BitPCMSample_div32768 (v : ℤ) (h1 : -32768 ≤ v) (h2 : v < 32768) :
    floatTo16BitPCMSample ((v : ℚ) / 32768) = if 0 < v then v - 1 else v := by
  have h32 : (0 : ℚ) < 32768 := by norm_num
  have hb1 : -1 ≤ (v : ℚ) / 32768 := by
    rw [le_div_iff₀ h32]
    have : ((-32768 : ℤ) : ℚ) ≤ (v : ℚ) := by exact_mod_cast h1
    push_cast at this ⊢
    linarith
  have hb2 : (v : ℚ) / 32768 ≤ 1 := by
    rw [div_le_one h32]
    exact_mod_cast le_of_lt h2
  unfold floatTo16BitPCMSample
  rw [clamp1_eq_self hb1 hb2]
  show truncJS (if (v : ℚ) / 32768 < 0 then (v : ℚ) / 32768 * 32768
      else (v : ℚ) / 32768 * 32767) = if 0 < v then v - 1 else v
  by_cases hv : v < 0
  · have hq : (v : ℚ) / 32768 < 0 :=
      div_neg_of_neg_of_pos (by exact_mod_cast hv) h32
    rw [if_pos hq, div_mul_cancel₀ _ (ne_of_gt h32), truncJS_intCast, if_neg (by omega)]
  · push_neg at hv
    have hq : ¬((v : ℚ) / 32768 < 0) :=
      not_lt.mpr (div_nonneg (by exact_mod_cast hv) (le_of_lt h32))
    rw [if_neg hq]
    have harg : (v : ℚ) / 32768 * 32767 = ((v * 32767 : ℤ) : ℚ) / ((32768 : ℕ) : ℚ) := by
      push_cast
      ring
    rw [harg]
    have hnn : (0 : ℚ) ≤ ((v * 32767 : ℤ) : ℚ) / ((32768 : ℕ) : ℚ) := by
      apply div_nonneg _ (by norm_num)
      have : (0 : ℤ) ≤ v * 32767 := by positivity
      exact_mod_cast this
    unfold truncJS
    rw [if_neg (not_lt.mpr hnn), Rat.floor_intCast_div_natCast]
    have : ((32768 : ℕ) : ℤ) = 32768 := rfl
    rw [this]
    split <;> omega

/-! ### 16-bit byte pairs -/

theorem toInt16_bounds (b0 b1 : Nat) (h0 : b0 < 256) (h1 : b1 < 256) :
    -32768 ≤ toInt16 b0 b1 ∧ toInt16 b0 b1 < 32768 := by
  simp only [toInt16]
  split <;> constructor <;> omega

theorem le16i_toInt16 (b0 b1 : Nat) (h0 : b0 < 256) (h1 : b1 < 256) :
    le16i (toInt16 b0 b1) = [b0, b1] := by
  simp only [le16i, toInt16]
  split <;> simp only [List.cons.injEq, and_true] <;> exact ⟨by omega, by omega⟩

theorem toInt16s_length : ∀ b : List Nat, (toInt16s b).length = b.length / 2
  | [] => rfl
  | [_] => by simp [toInt16s]
  | _ :: _ :: rest => by
    simp only [toInt16s, List.length_cons]
    rw [toInt16s_length rest]
    omega

theorem toInt16s_getD : ∀ (b : List Nat) (j : Nat), 2 * j + 1 < b.length →
    (toInt16s b).getD j 0 = toInt16 (b.getD (2 * j) 0) (b.getD (2 * j + 1) 0)
  | [], j, h => by simp at h
  | [_], j, h => by simp at h
  | b0 :: b1 :: rest, 0, _ => by simp [toInt16s]
  | b0 :: b1 :: rest, j + 1, h => by
    have hr : 2 * j + 1 < rest.length := by
      simp only [List.length_cons] at h
      omega
    have hidx1 : 2 * (j + 1) = 2 * j + 1 + 1 := by omega
    have hidx2 : 2 * (j + 1) + 1 = 2 * j + 1 + 1 + 1 := by omega
    simp only [toInt16s, List.getD_cons_succ, hidx1, hidx2]
    exact toInt16s_getD rest j hr

theorem toInt16s_mem_bounds : ∀ b : List Nat, (∀ x ∈ b, x < 256) →
    ∀ v ∈ toInt16s b, -32768 ≤ v ∧ v < 32768
  | [], _, v, hv => by simp [toInt16s] at hv
  | [_], _, v, hv => by simp [toInt16s] at hv
  | b0 :: b1 :: rest, hb, v, hv => by
    simp only [toInt16s, List.mem_cons] at hv
    rcases hv with rfl | hv
    · exact toInt16_bounds b0 b1 (hb _ (by simp)) (hb _ (by simp))
    · exact toInt16s_mem_bounds rest (fun x hx => hb x (by simp [hx])) v hv

/-! ### Decoding -/

/-- Mono decode of an even, non-empty byte stream: one planar channel of
the 16-bit samples divided by 32768. -/
theorem decodeAudioData_one (b : List Nat) (sr : Nat)
    (h2 : b.length % 2 = 0) (hne : b ≠ []) :
    decodeAudioData b sr 1 =
      .ok { sampleRate := sr
            channels := [(toInt16s b).map fun v : ℤ => (v : ℚ) / 32768] } := by
  have hlen0 : b.length ≠ 0 := fun h => hne (List.eq_nil_of_length_eq_zero h)
  have hlen : (toInt16s b).length = b.length / 2 := toInt16s_length b
  have hfc0 : (toInt16s b).length / 1 ≠ 0 := by
    rw [Nat.div_one, hlen]
    omega
  unfold decodeAudioData
  rw [if_neg (by omega)]
  rw [if_neg (by push_neg; exact ⟨one_ne_zero, by norm_num, hfc0⟩)]
  refine congrArg Except.ok ?_
  refine congrArg (JsAudioBuffer.mk sr) ?_
  rw [show List.range 1 = [0] from rfl, List.map_cons, List.map_nil]
  refine congrArg ([·]) ?_
  rw [Nat.div_one]
  calc (List.range (toInt16s b).length).map
        (fun i => ((toInt16s b).getD (i * 1 + 0) 0 : ℚ) / 32768)
      = (List.range (toInt16s b).length).map
        (fun i => ((toInt16s b).getD i 0 : ℚ) / 32768) := by
        exact List.map_congr_left fun i _ => by rw [Nat.mul_one, Nat.add_zero]
    _ = (toInt16s b).map (fun v : ℤ => (v : ℚ) / 32768) :=
        range_map_getD (toInt16s b) 0 (fun v : ℤ => (v : ℚ) / 32768)

theorem fromInt16s_toInt16s : ∀ b : List Nat, (∀ x ∈ b, x < 256) → b.length % 2 = 0 →
    fromInt16s (toInt16s b) = b
  | [], _, _ => rfl
  | [_], _, h2 => by simp at h2
  | b0 :: b1 :: rest, hb, h2 => by
    show le16i (toInt16 b0 b1) ++ fromInt16s (toInt16s rest) = b0 :: b1 :: rest
    rw [le16i_toInt16 b0 b1 (hb _ (by simp)) (hb _ (by simp))]
    rw [fromInt16s_toInt16s rest (fun x hx => hb x (by simp [hx]))
      (by simp only [List.length_cons] at h2 ⊢; omega)]
    rfl

/-! ### Claim C1 -/

/-- Claim C1 (corrected).  The claim states that decoding an even-length
byte stream as mono 16-bit PCM and re-encoding it with floatTo16BitPCM
returns exactly the original bytes.  What actually holds: the round trip
is the byte image of the per-sample map sending every positive 16-bit
value v to v - 1 and every non-positive value to itself (a positive sample
v becomes v/32768, is scaled by 32767 instead of 32768, and truncation
loses one unit; negative samples are scaled by 32768 and survive exactly).
The round trip is the identity precisely on streams with no positive
sample. -/
theorem claim_C1 (b : List Nat) (hb : ∀ x ∈ b, x < 256)
    (h2 : b.length % 2 = 0) (hne : b ≠ []) :
    ((decodeAudioData b 24000 1).map (fun buf => floatTo16BitPCM (buf.channels.headD [])) =
      .ok (fromInt16s ((toInt16s b).map fun v => if 0 < v then v - 1 else v))) ∧
    ((∀ v ∈ toInt16s b, v ≤ 0) →
      (decodeAudioData b 24000 1).map (fun buf => floatTo16BitPCM (buf.channels.headD [])) =
        .ok b) := by
  have key : (decodeAudioData b 24000 1).map
      (fun buf => floatTo16BitPCM (buf.channels.headD [])) =
      .ok (fromInt16s ((toInt16s b).map fun v => if 0 < v then v - 1 else v)) := by
    rw [decodeAudioData_one b 24000 h2 hne]
    show Except.ok (floatTo16BitPCM ((toInt16s b).map fun v : ℤ => (v : ℚ) / 32768)) = _
    refine congrArg Except.ok ?_
    unfold floatTo16BitPCM fromInt16s
    rw [List.flatMap_map, List.flatMap_map]
    refine flatMap_congr_mem _ _ _ fun v hv => ?_
    obtain ⟨hl, hr⟩ := toInt16s_mem_bounds b hb v hv
    show le16i (floatTo16BitPCMSample ((v : ℚ) / 32768)) = le16i (if 0 < v then v - 1 else v)
    rw [floatTo16BitPCMSample_div32768 v hl hr]
  refine ⟨key, fun hnp => ?_⟩
  rw [key]
  refine congrArg Except.ok ?_
  have hmap : (toInt16s b).map (fun v => if 0 < v then v - 1 else v) = toInt16s b := by
    rw [show (toInt16s b).map (fun v => if 0 < v then v - 1 else v) =
        (toInt16s b).map id from List.map_congr_left fun v hv => by
      rw [if_neg (by have := hnp v hv; omega)]; rfl]
    exact List.map_id _
  rw [hmap]
  exact fromInt16s_toInt16s b hb h2

/-- Counterexample to claim C1 as stated: the byte stream [1, 0] (the
single 16-bit sample 1) decodes to 1/32768 and re-encodes to [0, 0], not
to itself. -/
theorem claim_C1_counterexample :
    (decodeAudioData [1, 0] 24000 1).map (fun buf => floatTo16BitPCM (buf.channels.headD []))
        = .ok [0, 0] ∧
    (decodeAudioData [1, 0] 24000 1).map (fun buf => floatTo16BitPCM (buf.channels.headD []))
        ≠ .ok [1, 0] := by
  have h1 : toInt16 1 0 = 1 := by decide
  have key : (decodeAudioData [1, 0] 24000 1).map
      (fun buf => floatTo16BitPCM (buf.channels.headD [])) = .ok [0, 0] := by
    rw [decodeAudioData_one [1, 0] 24000 (by decide) (by decide)]
    show Except.ok (floatTo16BitPCM ((toInt16s [1, 0]).map fun v : ℤ => (v : ℚ) / 32768)) = _
    refine congrArg Except.ok ?_
    show floatTo16BitPCM [(toInt16 1 0 : ℚ) / 32768] = [0, 0]
    rw [h1]
    show le16i (floatTo16BitPCMSample ((1 : ℚ) / 32768)) ++ [] = [0, 0]
    rw [show ((1 : ℚ) / 32768) = (((1 : ℤ) : ℚ) / 32768) from by norm_num]
    rw [floatTo16BitPCMSample_div32768 1 (by omega) (by omega)]
    decide
  refine ⟨key, ?_⟩
  rw [key]
  intro h
  exact absurd (Except.ok.inj h) (by decide)

/-- Witness for claim C1 at the concrete stream [0, 0]. -/
theorem claim_C1_witness :
    (∀ x ∈ [(0 : Nat), 0], x < 256) ∧ [(0 : Nat), 0].length % 2 = 0 ∧
    ([(0 : Nat), 0] ≠ []) ∧
    ((decodeAudioData [0, 0] 24000 1).map (fun buf => floatTo16BitPCM (buf.channels.headD [])) =
      .ok (fromInt16s ((toInt16s [0, 0]).map fun v => if 0 < v then v - 1 else v))) ∧
    ((decodeAudioData [0, 0] 24000 1).map (fun buf => floatTo16BitPCM (buf.channels.headD [])) =
      .ok [0, 0]) :=
  ⟨by decide, by decide, by decide,
   (claim_C1 [0, 0] (by decide) (by decide) (by decide)).1,
   (claim_C1 [0, 0] (by decide) (by decide) (by decide)).2 (by decide)⟩

/-! ### Claim C3 -/

/-- Claim C3 (corrected).  The claim asserts that both float-to-16-bit
conversions on the WAV export path clamp to [-1, 1] and then scale by
32768 for negative and 32767 for non-negative clamped values.  That is the
behaviour of floatTo16BitPCMSample; the bufferToWave conversion instead
switches at -1/2 (its source reads 0.5 + sample < 0), so clamped samples
in [-1/2, 0) are scaled by 32767.  The range conclusion of the claim does
hold for both conversions: every rational input lands in
[-32768, 32767]. -/
theorem claim_C3 (q : ℚ) :
    (bufferToWaveSample q =
      truncJS (if clamp1 q < -(1/2) then clamp1 q * 32768 else clamp1 q * 32767)) ∧
    (floatTo16BitPCMSample q =
      truncJS (if clamp1 q < 0 then clamp1 q * 32768 else clamp1 q * 32767)) ∧
    -32768 ≤ bufferToWaveSample q ∧ bufferToWaveSample q ≤ 32767 ∧
    -32768 ≤ floatTo16BitPCMSample q ∧ floatTo16BitPCMSample q ≤ 32767 := by
  have hm1 := neg_one_le_clamp1 q
  have hle1 := clamp1_le_one q
  have hcond : (1/2 + clamp1 q < 0) ↔ (clamp1 q < -(1/2)) := by
    constructor <;> intro <;> linarith
  refine ⟨?_, rfl, ?_, ?_, ?_, ?_⟩
  · unfold bufferToWaveSample
    show truncJS (if 1/2 + clamp1 q < 0 then clamp1 q * 32768 else clamp1 q * 32767) = _
    by_cases h : clamp1 q < -(1/2)
    · rw [if_pos (hcond.mpr h), if_pos h]
    · rw [if_neg (fun hc => h (hcond.mp hc)), if_neg h]
  · unfold bufferToWaveSample
    show -32768 ≤ truncJS (if 1/2 + clamp1 q < 0 then clamp1 q * 32768 else clamp1 q * 32767)
    split
    · exact le_truncJS (by push_cast; linarith)
    · exact le_truncJS (by push_cast; linarith)
  · unfold bufferToWaveSample
    show truncJS (if 1/2 + clamp1 q < 0 then clamp1 q * 32768 else clamp1 q * 32767) ≤ 32767
    split
    · rename_i h
      exact truncJS_le (by push_cast; linarith)
    · exact truncJS_le (by push_cast; linarith)
  · unfold floatTo16BitPCMSample
    show -32768 ≤ truncJS (if clamp1 q < 0 then clamp1 q * 32768 else clamp1 q * 32767)
    split
    · exact le_truncJS (by push_cast; linarith)
    · exact le_truncJS (by push_cast; linarith)
  · unfold floatTo16BitPCMSample
    show truncJS (if clamp1 q < 0 then clamp1 q * 32768 else clamp1 q * 32767) ≤ 32767
    split
    · rename_i h
      exact truncJS_le (by push_cast; linarith)
    · exact truncJS_le (by push_cast; linarith)

/-- Counterexample to claim C3 as stated: at the sample -1/4 (clamped
value -1/4, negative), bufferToWave scales by 32767 and truncates to
-8191, while the claimed negative-branch scaling by 32768 would give
exactly -8192 (the value floatTo16BitPCM produces). -/
theorem claim_C3_counterexample :
    bufferToWaveSample (-(1/4) : ℚ) = -8191 ∧
    floatTo16BitPCMSample (-(1/4) : ℚ) = -8192 ∧
    bufferToWaveSample (-(1/4) : ℚ) ≠ floatTo16BitPCMSample (-(1/4) : ℚ) := by
  have hcl : clamp1 (-(1/4) : ℚ) = -(1/4) := clamp1_eq_self (by norm_num) (by norm_num)
  have h1 : bufferToWaveSample (-(1/4) : ℚ) = -8191 := by
    unfold bufferToWaveSample
    show truncJS (if 1/2 + clamp1 (-(1/4) : ℚ) < 0 then clamp1 (-(1/4) : ℚ) * 32768
        else clamp1 (-(1/4) : ℚ) * 32767) = -8191
    rw [hcl, if_neg (by norm_num)]
    unfold truncJS
    rw [if_pos (by norm_num)]
    rw [show (-(1/4) : ℚ) * 32767 = -(((32767 : ℤ) : ℚ) / ((4 : ℕ) : ℚ)) from by push_cast; ring]
    rw [Int.ceil_neg, Rat.floor_intCast_div_natCast]
    decide
  have h2 : floatTo16BitPCMSample (-(1/4) : ℚ) = -8192 := by
    unfold floatTo16BitPCMSample
    show truncJS (if clamp1 (-(1/4) : ℚ) < 0 then clamp1 (-(1/4) : ℚ) * 32768
        else clamp1 (-(1/4) : ℚ) * 32767) = -8192
    rw [hcl, if_pos (by norm_num)]
    rw [show (-(1/4) : ℚ) * 32768 = ((-8192 : ℤ) : ℚ) from by push_cast; ring]
    rw [truncJS_intCast]
  refine ⟨h1, h2, ?_⟩
  rw [h1, h2]
  decide

/-! ### Claim C4 -/

/-- Claim C4 (corrected).  The claim states that decoding fails with
MalformedAudioError whenever the byte length is not a multiple of
channelCount * 2.  The code performs no such validation and no such error
exists: the only failures are the RangeError of the Int16Array view on an
odd byte length and the NotSupportedError of createBuffer when the
truncated frame count is zero (or the channel count is unsupported).  An
even byte length that is not a multiple of channelCount * 2 with a
positive truncated frame count decodes without error, silently dropping
the trailing samples.  The positive half of the claim holds: when the
length is a multiple of channelCount * 2 (and non-zero, with a channel
count createBuffer accepts), the samples are de-interleaved into
channelCount planar channels by dividing each signed 16-bit little-endian
value by 32768, with sampleCount / channelCount frames per channel. -/
theorem claim_C4 (data : List Nat) (sr nc : Nat) :
    (data.length % 2 = 1 → decodeAudioData data sr nc = .error .rangeError) ∧
    (data.length % (2 * nc) = 0 → 1 ≤ nc → nc ≤ 32 → data ≠ [] →
      decodeAudioData data sr nc = .ok
        { sampleRate := sr
          channels := (List.range nc).map fun channel =>
            (List.range (data.length / (2 * nc))).map fun i =>
              (toInt16 (data.getD (2 * (i * nc + channel)) 0)
                       (data.getD (2 * (i * nc + channel) + 1) 0) : ℚ) / 32768 }) := by
  constructor
  · intro hodd
    unfold decodeAudioData
    rw [if_pos (by omega)]
  · intro hmul hnc1 hnc2 hne
    obtain ⟨k, hk⟩ := Nat.dvd_of_mod_eq_zero hmul
    have hk' : data.length = 2 * (nc * k) := by rw [hk]; ring
    have hlen0 : data.length ≠ 0 := fun h => hne (List.eq_nil_of_length_eq_zero h)
    have hkpos : k ≠ 0 := by
      intro h
      rw [h, Nat.mul_zero] at hk
      exact hlen0 hk
    have hilen : (toInt16s data).length = nc * k := by
      rw [toInt16s_length, hk']
      omega
    have hframes : (toInt16s data).length / nc = k := by
      rw [hilen]
      exact Nat.mul_div_cancel_left k (by omega)
    have hdivlen : data.length / (2 * nc) = k := by
      rw [hk]
      exact Nat.mul_div_cancel_left k (by omega)
    unfold decodeAudioData
    rw [if_neg (by omega)]
    rw [if_neg (by push_neg; exact ⟨by omega, by omega, by rw [hframes]; exact hkpos⟩)]
    refine congrArg Except.ok ?_
    refine congrArg (JsAudioBuffer.mk sr) ?_
    rw [hframes, hdivlen]
    refine List.map_congr_left fun channel hch => ?_
    rw [List.mem_range] at hch
    refine List.map_congr_left fun i hi => ?_
    rw [List.mem_range] at hi
    have hidx : 2 * (i * nc + channel) + 1 < data.length := by
      have h1 : i * nc + channel < k * nc := by
        calc i * nc + channel < i * nc + nc := by omega
          _ = (i + 1) * nc := by ring
          _ ≤ k * nc := Nat.mul_le_mul_right nc (by omega)
      have h2 : 2 * (i * nc + channel) + 1 < 2 * (k * nc) := by omega
      rw [hk']
      calc 2 * (i * nc + channel) + 1 < 2 * (k * nc) := h2
        _ = 2 * (nc * k) := by ring
    rw [toInt16s_getD data (i * nc + channel) hidx]

/-- Counterexample to claim C4 as stated: six zero bytes with channel
count 2 (byte length 6, not a multiple of 2 * 2 = 4) decode without any
error into a one-frame two-channel buffer; the third sample is silently
dropped. -/
theorem claim_C4_counterexample :
    (6 % (2 * 2) ≠ 0) ∧
    decodeAudioData [0, 0, 0, 0, 0, 0] 24000 2 =
      .ok { sampleRate := 24000
            channels := [[(toInt16 0 0 : ℚ) / 32768], [(toInt16 0 0 : ℚ) / 32768]] } := by
  refine ⟨by decide, ?_⟩
  unfold decodeAudioData
  rw [if_neg (by decide)]
  rw [if_neg (by decide)]
  rfl

/-- Witness for claim C4: an odd-length stream fails with the range
error, and a four-byte stereo stream decodes to the de-interleaved
planar channels. -/
theorem claim_C4_witness :
    decodeAudioData [1] 24000 1 = .error .rangeError ∧
    decodeAudioData [5, 0, 251, 255] 24000 2 =
      .ok { sampleRate := 24000
            channels := (List.range 2).map fun channel =>
              (List.range ([5, 0, 251, 255].length / (2 * 2))).map fun i =>
                (toInt16 ([5, 0, 251, 255].getD (2 * (i * 2 + channel)) 0)
                         ([5, 0, 251, 255].getD (2 * (i * 2 + channel) + 1) 0) : ℚ) / 32768 } :=
  ⟨(claim_C4 [1] 24000 1).1 (by decide),
   (claim_C4 [5, 0, 251, 255] 24000 2).2 (by decide) (by decide) (by decide) (by decide)⟩

/-! ### Scanner structure lemmas -/

theorem dropWhile_length_le {α : Type} (p : α → Bool) (l : List α) :
    (List.dropWhile p l).length ≤ l.length := by
  induction l with
  | nil => simp [List.dropWhile]
  | cons x xs ih =>
    by_cases hx : p x
    · simpa [List.dropWhile, hx] using Nat.le_succ_of_le ih
    · simp [List.dropWhile, hx]

/-- Bound for the list a successful match hands to the recursive call. -/
theorem scan_rest_bound (c : Char) (cs rest2 : List Char)
    (h : List.dropWhile idBodyChar (c :: cs) = ':' :: rest2) :
    (List.dropWhile (fun d => !jsLineTerm d) (List.dropWhile jsWhitespace rest2)).length
      ≤ cs.length := by
  have h4 := dropWhile_length_le (fun d => !jsLineTerm d) (List.dropWhile jsWhitespace rest2)
  have h3 := dropWhile_length_le jsWhitespace rest2
  by_cases hc : idBodyChar c
  · rw [List.dropWhile_cons_of_pos hc] at h
    have := dropWhile_length_le idBodyChar cs
    rw [h] at this
    simp only [List.length_cons] at this
    omega
  · rw [List.dropWhile_cons_of_neg hc] at h
    obtain ⟨hceq, hrest⟩ := List.cons.inj h
    subst hrest
    omega

/-- The scanner ignores the exact fuel as long as it covers the list
length. -/
theorem scanPairsGo_irrel : ∀ (f1 : Nat) (l : List Char) (b : Bool) (f2 : Nat),
    l.length ≤ f1 → l.length ≤ f2 → scanPairsGo f1 l b = scanPairsGo f2 l b
  | 0, l, b, f2, h1, _ => by
    have : l = [] := List.eq_nil_of_length_eq_zero (Nat.le_zero.mp h1)
    subst this
    cases f2 <;> rfl
  | f1 + 1, [], b, f2, _, _ => by cases f2 <;> rfl
  | f1 + 1, c :: cs, b, 0, h1, h2 => by simp at h2
  | f1 + 1, c :: cs, b, f2 + 1, h1, h2 => by
    simp only [List.length_cons] at h1 h2
    show scanPairsGo (f1 + 1) (c :: cs) b = scanPairsGo (f2 + 1) (c :: cs) b
    rw [scanPairsGo, scanPairsGo]
    by_cases hg : b && idStartChar c
    · rw [if_pos hg, if_pos hg]
      split
      · next rest2 heq =>
        have hb := scan_rest_bound c cs rest2 heq
        dsimp only
        rw [scanPairsGo_irrel f1 _ false f2 (by omega) (by omega)]
      · exact scanPairsGo_irrel f1 cs false f2 (by omega) (by omega)
    · rw [if_neg hg, if_neg hg]
      exact scanPairsGo_irrel f1 cs (jsLineTerm c) f2 (by omega) (by omega)

theorem scanPairsGo_eq_scanPairs (fuel : Nat) (l : List Char) (b : Bool)
    (h : l.length ≤ fuel) : scanPairsGo fuel l b = scanPairs l b :=
  scanPairsGo_irrel fuel l b l.length h (Nat.le_refl _)

theorem scanPairs_nil (b : Bool) : scanPairs [] b = [] := rfl

/-- A position that is not a line start, or whose character cannot begin
a name, is stepped over; the next position is a line start exactly when
the character was a line terminator. -/
theorem scanPairs_cons_skip (c : Char) (cs : List Char) (b : Bool)
    (h : b = false ∨ idStartChar c = false) :
    scanPairs (c :: cs) b = scanPairs cs (jsLineTerm c) := by
  show scanPairsGo (cs.length + 1) (c :: cs) b = _
  rw [scanPairsGo, if_neg (by rcases h with h | h <;> simp [h])]
  rfl

/-- A line start whose identifier run is followed by a colon produces a
match and continues after the consumed whitespace and line remainder. -/
theorem scanPairs_cons_match (c : Char) (cs rest2 : List Char)
    (hg : idStartChar c = true)
    (hdw : List.dropWhile idBodyChar (c :: cs) = ':' :: rest2) :
    scanPairs (c :: cs) true =
      (String.mk (List.takeWhile idBodyChar (c :: cs) ++
          ':' :: (List.takeWhile jsWhitespace rest2 ++
            List.takeWhile (fun d => !jsLineTerm d) (List.dropWhile jsWhitespace rest2))),
        String.mk (List.takeWhile idBodyChar (c :: cs))) ::
        scanPairs (List.dropWhile (fun d => !jsLineTerm d)
          (List.dropWhile jsWhitespace rest2)) false := by
  show scanPairsGo (cs.length + 1) (c :: cs) true = _
  rw [scanPairsGo, if_pos (by simp [hg])]
  split
  · next r2 heq =>
    rw [hdw] at heq
    obtain ⟨-, hr⟩ := List.cons.inj heq
    subst hr
    dsimp only
    rw [scanPairsGo_eq_scanPairs _ _ _ (scan_rest_bound c cs rest2 hdw)]
  · next hne => exact absurd hdw (hne rest2)

/-- A line start with a name-starting character but no colon after the
identifier run produces no match; scanning continues at the next
character. -/
theorem scanPairs_cons_nomatch (c : Char) (cs : List Char)
    (hg : idStartChar c = true)
    (hdw : ∀ rest2, List.dropWhile idBodyChar (c :: cs) ≠ ':' :: rest2) :
    scanPairs (c :: cs) true = scanPairs cs false := by
  show scanPairsGo (cs.length + 1) (c :: cs) true = _
  rw [scanPairsGo, if_pos (by simp [hg])]
  split
  · next r2 heq => exact absurd heq (hdw r2)
  · rfl

/-- Characters inside a line (no terminators) are skipped when the
scanner is not at a line start. -/
theorem scanPairs_append_skip (l rest : List Char)
    (h : ∀ c ∈ l, jsLineTerm c = false) :
    scanPairs (l ++ rest) false = scanPairs rest false := by
  induction l with
  | nil => rfl
  | cons c l0 ih =>
    rw [List.cons_append, scanPairs_cons_skip c (l0 ++ rest) false (Or.inl rfl)]
    rw [h c (by simp)]
    exact ih fun d hd => h d (by simp [hd])

theorem takeWhile_append_stop {α : Type} (p : α → Bool) (l : List α) (x : α) (r : List α)
    (hl : ∀ c ∈ l, p c = true) (hx : p x = false) :
    List.takeWhile p (l ++ x :: r) = l := by
  have hx' : ¬ p x = true := by simp [hx]
  induction l with
  | nil => rw [List.nil_append, List.takeWhile_cons_of_neg hx']
  | cons a l0 ih =>
    rw [List.cons_append, List.takeWhile_cons_of_pos (hl a (by simp))]
    rw [ih fun d hd => hl d (by simp [hd])]

theorem dropWhile_append_stop {α : Type} (p : α → Bool) (l : List α) (x : α) (r : List α)
    (hl : ∀ c ∈ l, p c = true) (hx : p x = false) :
    List.dropWhile p (l ++ x :: r) = x :: r := by
  have hx' : ¬ p x = true := by simp [hx]
  induction l with
  | nil => rw [List.nil_append, List.dropWhile_cons_of_neg hx']
  | cons a l0 ih =>
    rw [List.cons_append, List.dropWhile_cons_of_pos (hl a (by simp))]
    exact ih fun d hd => hl d (by simp [hd])

/-- Decomposition of a line recognised by the per-line reading: a
name-starting head, the name as the maximal identifier run, and a colon
right after it. -/
theorem lineLeadName_some (l nm : List Char) (h : lineLeadName l = some nm) :
    ∃ c l0 t, l = c :: l0 ∧ idStartChar c = true ∧
      List.takeWhile idBodyChar l = nm ∧ List.dropWhile idBodyChar l = ':' :: t := by
  cases l with
  | nil => simp [lineLeadName] at h
  | cons c l0 =>
    by_cases hst : idStartChar c
    · rw [lineLeadName, if_pos hst] at h
      split at h
      · next t heq =>
        simp only [Option.some.injEq] at h
        exact ⟨c, l0, t, rfl, hst, h, heq⟩
      · simp at h
    · rw [lineLeadName, if_neg hst] at h
      simp at h

theorem dropWhile_head_false {α : Type} (p : α → Bool) (l : List α) (d : α) (ds : List α)
    (h : List.dropWhile p l = d :: ds) : p d = false := by
  induction l with
  | nil => simp [List.dropWhile] at h
  | cons a l0 ih =>
    by_cases ha : p a
    · rw [List.dropWhile_cons_of_pos ha] at h
      exact ih h
    · rw [List.dropWhile_cons_of_neg ha] at h
      obtain ⟨h1, -⟩ := List.cons.inj h
      subst h1
      simpa using ha

theorem scanPairs_noterm_false (l : List Char)
    (h : ∀ c ∈ l, jsLineTerm c = false) : scanPairs l false = [] := by
  have h2 := scanPairs_append_skip l [] h
  rwa [List.append_nil] at h2

/-- A line recognised as a speaker line whose post-colon text holds a
non-whitespace character contributes its name and hands the scanner to the
next line. -/
theorem scanPairs_speaker_cont (l rest nm : List Char)
    (hln : lineLeadName l = some nm)
    (hnoterm : ∀ c ∈ l, jsLineTerm c = false)
    (htext : ∃ c ∈ (List.dropWhile idBodyChar l).drop 1, jsWhitespace c = false) :
    (scanPairs (l ++ '\n' :: rest) true).map Prod.snd =
      String.mk nm :: (scanPairs rest true).map Prod.snd := by
  obtain ⟨c, l0, t, hl, hst, htw, hdw⟩ := lineLeadName_some l nm hln
  subst hl
  have htmem : ∀ x ∈ t, x ∈ c :: l0 := by
    intro x hx
    have h1 : x ∈ ':' :: t := by simp [hx]
    rw [← hdw] at h1
    exact (List.dropWhile_sublist idBodyChar).subset h1
  have httext : ∃ x ∈ t, jsWhitespace x = false := by
    obtain ⟨x, hx1, hx2⟩ := htext
    rw [hdw] at hx1
    exact ⟨x, by simpa using hx1, hx2⟩
  have hsplit : (c :: l0) ++ '\n' :: rest =
      List.takeWhile idBodyChar (c :: l0) ++ ':' :: (t ++ '\n' :: rest) := by
    conv_lhs => rw [← List.takeWhile_append_dropWhile idBodyChar (c :: l0)]
    rw [hdw]
    simp
  have hcolon : idBodyChar ':' = false := by decide
  have hdw2 : List.dropWhile idBodyChar ((c :: l0) ++ '\n' :: rest) =
      ':' :: (t ++ '\n' :: rest) := by
    rw [hsplit]
    exact dropWhile_append_stop idBodyChar (List.takeWhile idBodyChar (c :: l0)) ':'
      (t ++ '\n' :: rest) (fun x hx => List.mem_takeWhile_imp hx) hcolon
  have htw2 : List.takeWhile idBodyChar ((c :: l0) ++ '\n' :: rest) = nm := by
    rw [hsplit, takeWhile_append_stop idBodyChar (List.takeWhile idBodyChar (c :: l0)) ':'
      (t ++ '\n' :: rest) (fun x hx => List.mem_takeWhile_imp hx) hcolon]
    exact htw
  rw [List.cons_append] at hdw2 htw2 ⊢
  rw [scanPairs_cons_match c (l0 ++ '\n' :: rest) (t ++ '\n' :: rest) hst hdw2]
  have hwsne : List.dropWhile jsWhitespace t ≠ [] := by
    intro hnil
    obtain ⟨x, hx1, hx2⟩ := httext
    have := (List.dropWhile_eq_nil_iff.mp hnil) x hx1
    rw [hx2] at this
    exact Bool.false_ne_true this
  have hws : List.dropWhile jsWhitespace (t ++ '\n' :: rest) =
      List.dropWhile jsWhitespace t ++ '\n' :: rest := by
    rw [List.dropWhile_append]
    rcases hdd : List.dropWhile jsWhitespace t with _ | _
    · exact absurd hdd hwsne
    · simp [hdd]
  have hterm : List.dropWhile (fun d => !jsLineTerm d)
      (List.dropWhile jsWhitespace (t ++ '\n' :: rest)) = '\n' :: rest := by
    rw [hws]
    refine dropWhile_append_stop (fun d => !jsLineTerm d) (List.dropWhile jsWhitespace t)
      '\n' rest ?_ (by decide)
    intro x hx
    have hxt : x ∈ t := (List.dropWhile_sublist jsWhitespace).subset hx
    show (!jsLineTerm x) = true
    rw [hnoterm x (htmem x hxt)]
    rfl
  rw [hterm]
  rw [scanPairs_cons_skip '\n' rest false (Or.inl rfl)]
  rw [show jsLineTerm '\n' = true from rfl]
  rw [List.map_cons, htw2]

/-- A final speaker line (no newline after it) contributes its name and
ends the scan. -/
theorem scanPairs_speaker_last (l nm : List Char)
    (hln : lineLeadName l = some nm)
    (hnoterm : ∀ c ∈ l, jsLineTerm c = false)
    (htext : ∃ c ∈ (List.dropWhile idBodyChar l).drop 1, jsWhitespace c = false) :
    (scanPairs l true).map Prod.snd = [String.mk nm] := by
  obtain ⟨c, l0, t, hl, hst, htw, hdw⟩ := lineLeadName_some l nm hln
  subst hl
  have htmem : ∀ x ∈ t, x ∈ c :: l0 := by
    intro x hx
    have h1 : x ∈ ':' :: t := by simp [hx]
    rw [← hdw] at h1
    exact (List.dropWhile_sublist idBodyChar).subset h1
  rw [scanPairs_cons_match c l0 t hst hdw]
  have hterm : List.dropWhile (fun d => !jsLineTerm d)
      (List.dropWhile jsWhitespace t) = [] := by
    rw [List.dropWhile_eq_nil_iff]
    intro x hx
    have hxt : x ∈ t := (List.dropWhile_sublist jsWhitespace).subset hx
    show (!jsLineTerm x) = true
    rw [hnoterm x (htmem x hxt)]
    rfl
  rw [hterm, scanPairs_nil, List.map_cons, List.map_nil, htw]

/-- A line the pattern does not recognise is passed over entirely. -/
theorem scanPairs_nonspeaker_cont (l rest : List Char)
    (hln : lineLeadName l = none)
    (hnoterm : ∀ c ∈ l, jsLineTerm c = false) :
    scanPairs (l ++ '\n' :: rest) true = scanPairs rest true := by
  have hnl : jsLineTerm '\n' = true := rfl
  cases l with
  | nil =>
    rw [List.nil_append, scanPairs_cons_skip '\n' rest true (Or.inr (by decide)), hnl]
  | cons c l0 =>
    have hskip : scanPairs (l0 ++ '\n' :: rest) false = scanPairs rest true := by
      rw [scanPairs_append_skip l0 ('\n' :: rest) fun d hd => hnoterm d (by simp [hd])]
      rw [scanPairs_cons_skip '\n' rest false (Or.inl rfl), hnl]
    by_cases hst : idStartChar c
    · rcases hdd : List.dropWhile idBodyChar (c :: l0) with _ | ⟨d, ds⟩
      · have hall : ∀ x ∈ c :: l0, idBodyChar x = true := List.dropWhile_eq_nil_iff.mp hdd
        have hdw2 : List.dropWhile idBodyChar ((c :: l0) ++ '\n' :: rest) = '\n' :: rest := by
          rw [List.dropWhile_append_of_pos hall, List.dropWhile_cons_of_neg (by decide)]
        rw [List.cons_append] at hdw2
        rw [List.cons_append]
        rw [scanPairs_cons_nomatch c (l0 ++ '\n' :: rest) hst
          (fun t ht => by rw [hdw2] at ht; exact absurd ((List.cons.inj ht).1) (by decide))]
        exact hskip
      · have hd : d ≠ ':' := by
          intro hdc
          subst hdc
          rw [lineLeadName, if_pos hst, hdd] at hln
          simp at hln
        have hdfalse : idBodyChar d = false := dropWhile_head_false _ _ _ _ hdd
        have hsplit : (c :: l0) ++ '\n' :: rest =
            List.takeWhile idBodyChar (c :: l0) ++ d :: (ds ++ '\n' :: rest) := by
          conv_lhs => rw [← List.takeWhile_append_dropWhile idBodyChar (c :: l0)]
          rw [hdd]
          simp
        have hdw2 : List.dropWhile idBodyChar ((c :: l0) ++ '\n' :: rest) =
            d :: (ds ++ '\n' :: rest) := by
          rw [hsplit]
          exact dropWhile_append_stop idBodyChar (List.takeWhile idBodyChar (c :: l0)) d
            (ds ++ '\n' :: rest) (fun x hx => List.mem_takeWhile_imp hx) hdfalse
        rw [List.cons_append] at hdw2
        rw [List.cons_append]
        rw [scanPairs_cons_nomatch c (l0 ++ '\n' :: rest) hst
          (fun t ht => by rw [hdw2] at ht; exact absurd ((List.cons.inj ht).1) hd)]
        exact hskip
    · rw [List.cons_append]
      rw [scanPairs_cons_skip c (l0 ++ '\n' :: rest) true (Or.inr (by simpa using hst))]
      rw [hnoterm c (by simp)]
      rw [scanPairs_append_skip l0 ('\n' :: rest) fun d hd => hnoterm d (by simp [hd])]
      rw [scanPairs_cons_skip '\n' rest false (Or.inl rfl), hnl]

/-- A final unrecognised line yields nothing. -/
theorem scanPairs_nonspeaker_last (l : List Char)
    (hln : lineLeadName l = none)
    (hnoterm : ∀ c ∈ l, jsLineTerm c = false) :
    scanPairs l true = [] := by
  cases l with
  | nil => rfl
  | cons c l0 =>
    have hskip : scanPairs l0 false = [] :=
      scanPairs_noterm_false l0 fun d hd => hnoterm d (by simp [hd])
    by_cases hst : idStartChar c
    · rcases hdd : List.dropWhile idBodyChar (c :: l0) with _ | ⟨d, ds⟩
      · rw [scanPairs_cons_nomatch c l0 hst (fun t ht => by rw [hdd] at ht; simp at ht)]
        exact hskip
      · have hd : d ≠ ':' := by
          intro hdc
          subst hdc
          rw [lineLeadName, if_pos hst, hdd] at hln
          simp at hln
        rw [scanPairs_cons_nomatch c l0 hst
          (fun t ht => by rw [hdd] at ht; exact absurd ((List.cons.inj ht).1) hd)]
        exact hskip
    · rw [scanPairs_cons_skip c l0 true (Or.inr (by simpa using hst))]
      rw [hnoterm c (by simp)]
      exact hskip

/-- Scanning a whole multi-line document visits the lines one at a time,
collecting exactly the names the per-line reading assigns, provided no
recognised line has a blank remainder (the hypothesis in goodLine). -/
theorem scanPairs_joinLines : ∀ lines : List (List Char),
    (∀ l ∈ lines, goodLine l) →
    (scanPairs (joinLines lines) true).map Prod.snd =
      (lines.filterMap lineLeadName).map String.mk
  | [], _ => rfl
  | [l], h => by
    rw [show joinLines [l] = l from rfl]
    rcases hln : lineLeadName l with _ | nm
    · rw [scanPairs_nonspeaker_last l hln ((h l (by simp)).1)]
      simp [hln]
    · have htext := (h l (by simp)).2.resolve_left (by rw [hln]; simp)
      rw [scanPairs_speaker_last l nm hln ((h l (by simp)).1) htext]
      simp [hln]
  | l :: l2 :: ls, h => by
    rw [show joinLines (l :: l2 :: ls) = l ++ '\n' :: joinLines (l2 :: ls) from rfl]
    have ih := scanPairs_joinLines (l2 :: ls) fun x hx => h x (by simp [hx])
    rcases hln : lineLeadName l with _ | nm
    · rw [scanPairs_nonspeaker_cont l (joinLines (l2 :: ls)) hln ((h l (by simp)).1)]
      rw [ih]
      simp [hln]
    · have htext := (h l (by simp)).2.resolve_left (by rw [hln]; simp)
      rw [scanPairs_speaker_cont l (joinLines (l2 :: ls)) nm hln
        ((h l (by simp)).1) htext]
      rw [ih]
      simp [hln]

/-! ### Claim C6 -/

/-- Claim C6 (corrected).  Extraction: getRecognizedSpeakers returns the
distinct captured names in order of first appearance with duplicates
collapsed, but a name is not always captured for every line matching the
line-leading pattern: when the text after a colon is empty or all
whitespace, the \s* of the pattern crosses the line break and swallows the
following line, whose leading name is then lost (see the counterexample).
For scripts in which every line either fails the pattern or carries a
non-whitespace character after its colon, the extraction is exactly the
per-line reading, and on the example script it returns [Joe, Jane].
Reconciliation: the i-th kept name receives defaultVoices[i mod 5], at
most MAX_SPEAKERS = 5 names are kept and extra names are dropped without
any error, as claimed. -/
theorem claim_C6 :
    (getRecognizedSpeakers "Joe: Hello.\nJane: Hi!" = ["Joe", "Jane"]) ∧
    (∀ lines : List (List Char), (∀ l ∈ lines, goodLine l) →
      getRecognizedSpeakers (String.mk (joinLines lines)) =
        collectUnique ((lines.filterMap lineLeadName).map String.mk)) ∧
    (∀ (now : Nat) (names : List String),
      (reconcileSpeakers now names).length = min MAX_SPEAKERS names.length) ∧
    (∀ (now : Nat) (names : List String) (i : Nat),
      i < (reconcileSpeakers now names).length →
      (reconcileSpeakers now names).getD i ⟨0, "", ""⟩ =
        { id := now + i
          name := names.getD i ""
          voice := defaultVoices.getD (i % defaultVoices.length) "" }) ∧
    (reconcileSpeakers 0 ["Joe", "Jane"] =
      [⟨0, "Joe", "Kore"⟩, ⟨1, "Jane", "Zephyr"⟩]) := by
  refine ⟨by decide, ?_, ?_, ?_, by decide⟩
  · intro lines h
    show collectUnique ((scanPairs (String.mk (joinLines lines)).data true).map Prod.snd) = _
    rw [show (String.mk (joinLines lines)).data = joinLines lines from rfl]
    rw [scanPairs_joinLines lines h]
  · intro now names
    unfold reconcileSpeakers
    rw [List.length_mapIdx, List.length_take]
  · intro now names i hi
    unfold reconcileSpeakers at hi ⊢
    rw [List.length_mapIdx, List.length_take] at hi
    have hi2 : i < (names.take MAX_SPEAKERS).length := by
      rw [List.length_take]
      exact hi
    rw [List.getD_eq_getElem _ _ (by rw [List.length_mapIdx]; exact hi2)]
    rw [List.getElem_mapIdx]
    have hnames : (names.take MAX_SPEAKERS)[i] = names.getD i "" := by
      rw [List.getElem_take]
      exact (List.getD_eq_getElem names "" (by
        rw [List.length_take] at hi2
        omega)).symm
    rw [hnames]

/-- Counterexample to claim C6 as stated: in the script consisting of the
line A-colon (blank remainder) followed by the line B-colon-space-hi, both
lines match the line-leading pattern (the per-line reading specLineNames
yields [A, B]), but getRecognizedSpeakers returns only [A]: the
whitespace run of the first match swallows the newline and the whole
second line. -/
theorem claim_C6_counterexample :
    getRecognizedSpeakers "A:\nB: hi" = ["A"] ∧
    specLineNames "A:\nB: hi" = ["A", "B"] ∧
    getRecognizedSpeakers "A:\nB: hi" ≠ specLineNames "A:\nB: hi" := by
  refine ⟨by decide, by decide, ?_⟩
  intro h
  rw [show specLineNames "A:\nB: hi" = ["A", "B"] from by decide] at h
  rw [show getRecognizedSpeakers "A:\nB: hi" = ["A"] from by decide] at h
  exact absurd h (by decide)

/-- Witness for claim C6: the general extraction part applied to the
two-line example script, and the element part of reconciliation applied
at index 1 of a three-name roster. -/
theorem claim_C6_witness :
    (getRecognizedSpeakers (String.mk (joinLines ["Joe: Hello.".data, "Jane: Hi!".data])) =
      collectUnique (((["Joe: Hello.".data, "Jane: Hi!".data]).filterMap lineLeadName).map
        String.mk)) ∧
    ((reconcileSpeakers 7 ["Joe", "Jane", "Ana"]).getD 1 ⟨0, "", ""⟩ =
      { id := 7 + 1
        name := ["Joe", "Jane", "Ana"].getD 1 ""
        voice := defaultVoices.getD (1 % defaultVoices.length) "" }) :=
  ⟨claim_C6.2.1 ["Joe: Hello.".data, "Jane: Hi!".data] (by decide),
   claim_C6.2.2.2.1 7 ["Joe", "Jane", "Ana"] 1 (by decide)⟩

/-! ### Claim C10 -/

/-- Claim C10 (confirmed).  In the standalone TTS service, when the text
contains at least one line matching the speaker pattern but the
per-part loop produces no speaker voice configurations, generateTTS sends
the single-voice configuration built from the caller-supplied voiceName
and settings rather than failing or sending an empty multi-speaker
configuration.  (Because String.prototype.match is called with the global
regular expression, match[1] holds the second full match rather than the
capture group, so in practice the configs list is always empty and this
fallback is what every multi-speaker input receives.) -/
theorem claim_C10 (text voiceName : String) (settings : SpeechSettingsV)
    (h1 : parseMultiSpeakerText text ≠ [])
    (h2 : buildSpeakerVoiceConfigs (parseMultiSpeakerText text) settings = []) :
    generateTTSSpeechConfig text voiceName settings = .voice voiceName settings := by
  unfold generateTTSSpeechConfig
  rw [if_neg (by simpa using h1)]
  rw [if_pos (by simpa using h2)]

/-- Witness for claim C10 at the script with one Joe line. -/
theorem claim_C10_witness :
    generateTTSSpeechConfig "Joe: Hello." "Zephyr" ⟨1, 0, 0⟩ = .voice "Zephyr" ⟨1, 0, 0⟩ :=
  claim_C10 "Joe: Hello." "Zephyr" ⟨1, 0, 0⟩ (by decide) (by decide)

/-! ### Claim C7 -/

theorem foldl_push_eq {α β : Type} (P : α → Prop) [DecidablePred P] (f : α → β) :
    ∀ (l : List α) (acc : List β),
      l.foldl (fun acc p => if P p then acc ++ [f p] else acc) acc =
        acc ++ (l.filter fun p => decide (P p)).map f := by
  intro l
  induction l with
  | nil => intro acc; simp
  | cons x xs ih =>
    intro acc
    rw [List.foldl_cons, List.filter_cons]
    by_cases hx : P x
    · rw [if_pos hx, ih]
      simp [hx]
    · rw [if_neg hx, ih]
      simp [hx]

/-- Claim C7 (confirmed).  The emotion instruction maps every entry of the
blend that is not neutral and has positive intensity to its adverbial
phrase (with the fallback for unregistered emotions baked into adverbFor),
joins them with " and " and wraps the result; the empty blend and blends
with only neutral or zero-intensity entries yield the empty string, and
the example blend yields exactly the claimed instruction. -/
theorem claim_C7 (blend : List (String × Int)) :
    (getEmotionPromptString blend =
      (let phrases := (blend.filter fun p => decide (p.1 ≠ "neutral" ∧ 0 < p.2)).map
          fun p => adverbFor p.1
       if phrases.isEmpty then ""
       else "Recite the following " ++ String.intercalate " and " phrases ++ ": ")) ∧
    getEmotionPromptString [("joyful", 80), ("excited", 60)] =
      "Recite the following joyfully and excitedly: " ∧
    getEmotionPromptString [] = "" ∧
    (∀ blend2 : List (String × Int), (∀ p ∈ blend2, p.1 = "neutral" ∨ p.2 ≤ 0) →
      getEmotionPromptString blend2 = "") := by
  refine ⟨?_, by decide, by decide, ?_⟩
  · unfold getEmotionPromptString
    rw [foldl_push_eq (fun p : String × Int => p.1 ≠ "neutral" ∧ 0 < p.2)
      (fun p => adverbFor p.1) blend []]
    rw [List.nil_append]
  · intro blend2 h
    unfold getEmotionPromptString
    rw [foldl_push_eq (fun p : String × Int => p.1 ≠ "neutral" ∧ 0 < p.2)
      (fun p => adverbFor p.1) blend2 []]
    rw [List.nil_append]
    have hfil : (blend2.filter fun p => decide (p.1 ≠ "neutral" ∧ 0 < p.2)) = [] := by
      rw [List.filter_eq_nil_iff]
      intro p hp
      simp only [decide_eq_true_eq]
      rintro ⟨hne, hlt⟩
      rcases h p hp with h1 | h1
      · exact hne h1
      · omega
    rw [hfil]
    rfl

/-- Witness for claim C7: the all-neutral-or-zero part applied to a
concrete blend. -/
theorem claim_C7_witness :
    getEmotionPromptString [("neutral", 50), ("joyful", 0)] = "" :=
  (claim_C7 []).2.2.2 [("neutral", 50), ("joyful", 0)] (by decide)

/-! ### Claim C2 -/

/-- Claim C2 (corrected).  The claim states the plain-mode prompt is the
concatenation of emotion instruction, then narration-style instruction,
then language-hint instruction, then the script.  The code instead
prepends instructions in the opposite order and adds a fixed request
prefix: the prompt is "TTS the following text: " followed by the
language-hint instruction (if the toggle is on), the narration-style
instruction (if a non-default style is selected), the emotion instruction
(if any), and the literal script text. -/
theorem claim_C2 (blend : List (String × Int)) (narrationStyle : String)
    (useHinglish : Bool) (script : String) :
    ttsPrompt blend narrationStyle useHinglish script =
      "TTS the following text: " ++ (if useHinglish then hinglishInstruction else "") ++
        narrationStylePromptMap narrationStyle ++ getEmotionPromptString blend ++ script := by
  dsimp only [ttsPrompt]
  split_ifs <;> simp_all [String.append_assoc]

/-- Counterexample to claim C2 as stated: with the joyful emotion, the
news narration style, the Hinglish toggle on and the script Hi, the
prompt described by the claim (specTtsPrompt) differs from the prompt the
code builds: the code adds the fixed prefix and orders the instructions
language hint, then narration style, then emotion. -/
theorem claim_C2_counterexample :
    specTtsPrompt [("joyful", 80)] "news" true "Hi" ≠
      ttsPrompt [("joyful", 80)] "news" true "Hi" := by
  decide

/-! ### Claim C5 -/

/-- Claim C5 (confirmed).  Starting story generation in the multi-speaker
or AI-director mode with fewer than MIN_SPEAKERS = 2 configured speakers
fails with the insufficient-speakers error, and no request for the remote
model is produced for that attempt (the result is an error, not a
request).  The script is assumed non-blank, since an all-whitespace script
fails earlier with the empty-script error for every tab. -/
theorem claim_C5 (script : String) (mode : StoryMode)
    (speakers : List (String × String)) (aiCreative : Bool)
    (emotionInstruction storyVoice : String)
    (hs : jsTrim script ≠ "")
    (hm : mode = .multi ∨ mode = .ai)
    (hn : speakers.length < MIN_SPEAKERS) :
    storyGenerate script mode speakers aiCreative emotionInstruction storyVoice =
      .error .insufficientSpeakers := by
  unfold storyGenerate
  rw [if_neg hs]
  rcases hm with h | h <;> subst h
  · show (if speakers.length < MIN_SPEAKERS then
        (.error .insufficientSpeakers : Except GenError StoryRequest) else _) = _
    rw [if_pos hn]
  · show (if speakers.length < MIN_SPEAKERS then
        (.error .insufficientSpeakers : Except GenError StoryRequest) else _) = _
    rw [if_pos hn]

/-- Witness for claim C5 on a one-speaker roster in both modes. -/
theorem claim_C5_witness :
    storyGenerate "Joe: Hi" .multi [("Joe", "Kore")] false "" "Zephyr" =
      .error .insufficientSpeakers ∧
    storyGenerate "Joe: Hi" .ai [("Joe", "Kore")] true "" "Zephyr" =
      .error .insufficientSpeakers :=
  ⟨claim_C5 "Joe: Hi" .multi [("Joe", "Kore")] false "" "Zephyr"
      (by decide) (Or.inl rfl) (by decide),
   claim_C5 "Joe: Hi" .ai [("Joe", "Kore")] true "" "Zephyr"
      (by decide) (Or.inr rfl) (by decide)⟩

/-! ### Claim C8 -/

theorem flatMap_const_length {α : Type} (l : List α) (f : α → List Nat) (k : Nat)
    (h : ∀ x ∈ l, (f x).length = k) : (l.flatMap f).length = l.length * k := by
  induction l with
  | nil => simp
  | cons x xs ih =>
    rw [List.flatMap_cons, List.length_append, h x (by simp),
      ih fun y hy => h y (by simp [hy])]
    simp [List.length_cons]
    ring

set_option maxHeartbeats 1000000 in
/-- Claim C8 (confirmed).  For every buffer, bufferToWave invoked with the
buffer frame count (as at both call sites) yields exactly
44 + frameCount * channelCount * 2 bytes: a 44-byte RIFF/WAVE header whose
format tag (offset 20) is 1, whose bits-per-sample field (offset 34) is
16 and whose byte-rate field (offset 28) is
sampleRate * channelCount * 2, followed by the interleaved converted
16-bit samples. -/
theorem claim_C8 (a : WaveBuffer) :
    (bufferToWave a a.numFrames).length = 44 + a.numFrames * a.channels.length * 2 ∧
    (bufferToWave a a.numFrames).take 4 = [0x52, 0x49, 0x46, 0x46] ∧
    ((bufferToWave a a.numFrames).drop 8).take 4 = [0x57, 0x41, 0x56, 0x45] ∧
    ((bufferToWave a a.numFrames).drop 20).take 2 = le16 1 ∧
    ((bufferToWave a a.numFrames).drop 34).take 2 = le16 16 ∧
    ((bufferToWave a a.numFrames).drop 28).take 4 =
      le32 (a.sampleRate * a.channels.length * 2) ∧
    (bufferToWave a a.numFrames).drop 44 =
      ((List.range a.numFrames).flatMap fun offset =>
        (List.range a.channels.length).flatMap fun i =>
          int16Bytes (bufferToWaveSample ((a.channels.getD i []).getD offset 0))) := by
  have hdata : ((List.range a.numFrames).flatMap fun offset =>
      (List.range a.channels.length).flatMap fun i =>
        int16Bytes (bufferToWaveSample ((a.channels.getD i []).getD offset 0))).length =
      a.numFrames * (a.channels.length * 2) := by
    rw [flatMap_const_length (List.range a.numFrames)
      (fun offset => (List.range a.channels.length).flatMap fun i =>
        int16Bytes (bufferToWaveSample ((a.channels.getD i []).getD offset 0)))
      (a.channels.length * 2) ?_, List.length_range]
    intro off hoff
    rw [flatMap_const_length (List.range a.channels.length)
      (fun i => int16Bytes (bufferToWaveSample ((a.channels.getD i []).getD off 0)))
      2 (fun i hi => rfl), List.length_range]
  have hlen : (bufferToWave a a.numFrames).length =
      44 + a.numFrames * a.channels.length * 2 := by
    show (le32 0x46464952 ++ le32 (a.numFrames * a.channels.length * 2 + 44 - 8) ++
        le32 0x45564157 ++ le32 0x20746d66 ++ le32 16 ++ le16 1 ++
        le16 a.channels.length ++ le32 a.sampleRate ++
        le32 (a.sampleRate * 2 * a.channels.length) ++ le16 (a.channels.length * 2) ++
        le16 16 ++ le32 0x61746164 ++
        le32 (a.numFrames * a.channels.length * 2 + 44 - 44) ++
        ((List.range a.numFrames).flatMap fun offset =>
          (List.range a.channels.length).flatMap fun i =>
            int16Bytes (bufferToWaveSample ((a.channels.getD i []).getD offset 0)))).length =
      44 + a.numFrames * a.channels.length * 2
    simp only [List.length_append, le32, le16, List.length_cons, List.length_nil, hdata]
    ring
  have hriff : (bufferToWave a a.numFrames).take 4 = [0x52, 0x49, 0x46, 0x46] := rfl
  have hwavetag : ((bufferToWave a a.numFrames).drop 8).take 4 =
      [0x57, 0x41, 0x56, 0x45] := rfl
  have hfmt : ((bufferToWave a a.numFrames).drop 20).take 2 = le16 1 := rfl
  have hbits : ((bufferToWave a a.numFrames).drop 34).take 2 = le16 16 := rfl
  have hrate : ((bufferToWave a a.numFrames).drop 28).take 4 =
      le32 (a.sampleRate * a.channels.length * 2) := by
    have harg : a.sampleRate * 2 * a.channels.length =
        a.sampleRate * a.channels.length * 2 := by ring
    rw [← harg]
    rfl
  have hdat : (bufferToWave a a.numFrames).drop 44 =
      ((List.range a.numFrames).flatMap fun offset =>
        (List.range a.channels.length).flatMap fun i =>
          int16Bytes (bufferToWaveSample ((a.channels.getD i []).getD offset 0))) := rfl
  exact ⟨hlen, hriff, hwavetag, hfmt, hbits, hrate, hdat⟩

/-! ### Claim C9 -/

/-- Preservation of the counter invariant by one transition. -/
theorem mp3Step_inv (s : Mp3State) (e : Mp3Event)
    (h : s.finished ≤ s.started ∧ s.started ≤ s.finished + 1 ∧
      (s.isEncodingMp3 = true ↔ s.started = s.finished + 1)) :
    (mp3Step s e).1.finished ≤ (mp3Step s e).1.started ∧
    (mp3Step s e).1.started ≤ (mp3Step s e).1.finished + 1 ∧
    ((mp3Step s e).1.isEncodingMp3 = true ↔
      (mp3Step s e).1.started = (mp3Step s e).1.finished + 1) := by
  rcases s with ⟨enc, st, fin⟩
  obtain ⟨h1, h2, h3⟩ := h
  cases e with
  | request hb hw =>
    cases hb <;> cases hw <;> cases enc <;>
      first
      | (simp_all [mp3Step]; omega)
      | simp_all [mp3Step]
  | workerMessage => cases enc <;> simp_all [mp3Step]
  | workerError => cases enc <;> simp_all [mp3Step]
  | processingError => cases enc <;> simp_all [mp3Step]

theorem mp3_run_inv : ∀ (evts : List Mp3Event) (s : Mp3State),
    (s.finished ≤ s.started ∧ s.started ≤ s.finished + 1 ∧
      (s.isEncodingMp3 = true ↔ s.started = s.finished + 1)) →
    ((evts.foldl (fun s e => (mp3Step s e).1) s).finished ≤
        (evts.foldl (fun s e => (mp3Step s e).1) s).started ∧
      (evts.foldl (fun s e => (mp3Step s e).1) s).started ≤
        (evts.foldl (fun s e => (mp3Step s e).1) s).finished + 1 ∧
      ((evts.foldl (fun s e => (mp3Step s e).1) s).isEncodingMp3 = true ↔
        (evts.foldl (fun s e => (mp3Step s e).1) s).started =
          (evts.foldl (fun s e => (mp3Step s e).1) s).finished + 1))
  | [], s, h => h
  | e :: evts, s, h => by
    rw [List.foldl_cons]
    exact mp3_run_inv evts (mp3Step s e).1 (mp3Step_inv s e h)

/-- Claim C9 (confirmed).  Along every event sequence from the initial
state, the number of started encodes never exceeds the number of finished
ones by more than one, and the busy flag is set exactly while an encode
is in flight (at most one MP3 encode active at a time); a request made
while the flag is set is answered with the busy alert and leaves the
state unchanged (nothing is queued and no encode starts); each of the
worker-completion, worker-error and processing-failure events clears the
flag; and a request in a non-busy state with a buffer and a worker
starts a job. -/
theorem claim_C9 :
    (∀ evts : List Mp3Event,
      (mp3Run evts).finished ≤ (mp3Run evts).started ∧
      (mp3Run evts).started ≤ (mp3Run evts).finished + 1 ∧
      ((mp3Run evts).isEncodingMp3 = true ↔
        (mp3Run evts).started = (mp3Run evts).finished + 1)) ∧
    (∀ (s : Mp3State) (hw : Bool), s.isEncodingMp3 = true →
      mp3Step s (.request true hw) = (s, .busyAlert)) ∧
    (∀ s : Mp3State,
      (mp3Step s .workerMessage).1.isEncodingMp3 = false ∧
      (mp3Step s .workerError).1.isEncodingMp3 = false ∧
      (mp3Step s .processingError).1.isEncodingMp3 = false) ∧
    (∀ s : Mp3State, s.isEncodingMp3 = false →
      (mp3Step s (.request true true)).2 = .jobStarted ∧
      (mp3Step s (.request true true)).1.isEncodingMp3 = true) := by
  refine ⟨?_, ?_, ?_, ?_⟩
  · intro evts
    exact mp3_run_inv evts mp3Init (by simp [mp3Init])
  · intro s hw h
    simp [mp3Step, h]
  · intro s
    rcases s with ⟨enc, st, fin⟩
    cases enc <;> simp [mp3Step]
  · intro s h
    simp [mp3Step, h]

/-- Witness for claim C9: a trace that starts an encode, gets rejected
while busy, finishes, and starts again. -/
theorem claim_C9_witness :
    (mp3Step { isEncodingMp3 := true, started := 1, finished := 0 } (.request true true) =
      ({ isEncodingMp3 := true, started := 1, finished := 0 }, .busyAlert)) ∧
    ((mp3Step { isEncodingMp3 := false, started := 1, finished := 1 }
        (.request true true)).2 = .jobStarted) ∧
    ((mp3Run [.request true true, .request true true, .workerMessage]).isEncodingMp3 = true ↔
      (mp3Run [.request true true, .request true true, .workerMessage]).started =
        (mp3Run [.request true true, .request true true, .workerMessage]).finished + 1) :=
  ⟨claim_C9.2.1 { isEncodingMp3 := true, started := 1, finished := 0 } true rfl,
   (claim_C9.2.2.2 { isEncodingMp3 := false, started := 1, finished := 1 } rfl).1,
   (claim_C9.1 [.request true true, .request true true, .workerMessage]).2.2⟩

end Vedoice
